import Mathlib

/-!
# Verification of the pve-sdk-rs task-polling and authentication core

Shallow embedding of the core of a typed REST client for a hypervisor
control-plane API: the parameter map (`src/params.rs`), path and base-URL
handling (`src/core/transport.rs`), the authentication negotiator
(`src/core/auth.rs`), API-token format validation (`src/client_option.rs`),
ACL mutation validation (`src/services/operations/access.rs`), response
envelope handling (`src/core/transport.rs`), and the task poller
(`src/services/operations/task.rs`).

Rust strings are modelled as Lean `String` (a wrapper around `List Char`);
string helpers from the Rust standard library (`trim`, `split_once`,
`starts_with`, `contains`, `matches(c).count`, `trim_end_matches`,
`eq_ignore_ascii_case`) are reimplemented below on `List Char`.
-/

set_option autoImplicit false

namespace PveSdk

/-- Rust `str::starts_with`: `leadsWith pat l` is true when `pat` occurs at
the head of `l`. -/
def leadsWith : List Char → List Char → Bool
  | [], _ => true
  | _ :: _, [] => false
  | a :: as, b :: bs => a == b && leadsWith as bs

/-- Rust `str::ends_with` for a single pattern list. -/
def trailsWith (pat l : List Char) : Bool :=
  leadsWith pat.reverse l.reverse

/-- Rust `str::split_once(sep)`: splits around the first occurrence of
`sep`, returning the parts before and after it. -/
def splitOnce (sep : Char) : List Char → Option (List Char × List Char)
  | [] => none
  | c :: rest =>
    if c = sep then some ([], rest)
    else
      match splitOnce sep rest with
      | some (a, b) => some (c :: a, b)
      | none => none

/-- Whitespace as recognised by the trimming helpers (the ASCII subset of
Rust `char::is_whitespace`). -/
def isWs (c : Char) : Bool :=
  c == ' ' || c == '\t' || c == '\n' || c == '\r'

/-- Rust `str::trim`. -/
def rustTrim (l : List Char) : List Char :=
  ((l.dropWhile isWs).reverse.dropWhile isWs).reverse

/-- Rust `str::trim_end_matches('/')`. -/
def dropTrailingSlashes (l : List Char) : List Char :=
  (l.reverse.dropWhile (fun c => c == '/')).reverse

/-- Rust `str::matches(c).count()` for a single-character pattern. -/
def countC (c : Char) (l : List Char) : Nat :=
  (l.filter (fun x => x == c)).length

/-- Occurrence of the two-character sequence `]:` (Rust
`str::contains("]:")`), checked pairwise along the list. -/
def hasBracketColon : List Char → Bool
  | [] => false
  | [_] => false
  | c :: c2 :: rest => (c == ']' && c2 == ':') || hasBracketColon (c2 :: rest)

/-- ASCII lowercasing of one character (Rust `u8::to_ascii_lowercase`). -/
def asciiLower (c : Char) : Char :=
  if 'A' ≤ c ∧ c ≤ 'Z' then Char.ofNat (c.toNat + 32) else c

/-- Rust `str::eq_ignore_ascii_case`. -/
def eqIgnoreAsciiCase (a b : String) : Bool :=
  a.toList.map asciiLower == b.toList.map asciiLower

/-- Rust `str::trim` on `String`. -/
def strTrim (s : String) : String :=
  (rustTrim s.toList).asString

/-- Blankness used by the ACL validator: the trimmed value is empty. -/
def isBlank (s : String) : Bool :=
  (rustTrim s.toList).isEmpty

/-- The error enumeration of `src/error.rs` (variants relevant to this
core; the wrapped foreign error payloads of `Http`/`Io` carry no data the
claims inspect, `Decode` keeps only a message). -/
inductive PveError where
  | invalidBaseUrl (msg : String)
  | invalidArgument (msg : String)
  | http (msg : String)
  | io (msg : String)
  | decode (msg : String)
  | apiStatus (status : Nat) (body : String)
  | missingCsrfToken
  | taskFailed (upid : String) (exitstatus : String)
  | taskTimeout (upid : String) (timeoutSecs : Nat)
  deriving DecidableEq, Repr

/-- The parameter map of `src/params.rs`: a `BTreeMap<String, String>`
modelled as a key-sorted association list with unique keys (the sortedness
invariant is stated separately as `KeysOrdered`). -/
abbrev PveParams : Type := List (String × String)

/-- `BTreeMap::get`. -/
def PveParams.get (m : PveParams) (k : String) : Option String :=
  match m with
  | [] => none
  | (k1, v1) :: rest => if k1 = k then some v1 else PveParams.get rest k

/-- `BTreeMap::insert`: insert in key order, overwriting an equal key. -/
def PveParams.insert (m : PveParams) (k v : String) : PveParams :=
  match m with
  | [] => [(k, v)]
  | (k1, v1) :: rest =>
    if k < k1 then (k, v) :: (k1, v1) :: rest
    else if k = k1 then (k, v) :: rest
    else (k1, v1) :: PveParams.insert rest k v

/-- `PveParams::insert_opt` from `src/params.rs`. -/
def PveParams.insertOpt (m : PveParams) (k : String) (v : Option String) : PveParams :=
  match v with
  | some v => m.insert k v
  | none => m

/-- `PveParams::insert_bool` from `src/params.rs`. -/
def PveParams.insertBool (m : PveParams) (k : String) (b : Bool) : PveParams :=
  m.insert k (if b then "1" else "0")

/-- `PveParams::extend` from `src/params.rs`: iterate the other map in
order, inserting each entry into this one. -/
def PveParams.extend (m other : PveParams) : PveParams :=
  other.foldl (fun acc kv => acc.insert kv.1 kv.2) m

/-- Keys of the map. -/
def PveParams.keys (m : PveParams) : List String :=
  m.map Prod.fst

/-- The `BTreeMap` representation invariant: entries strictly sorted by
key. -/
def PveParams.KeysOrdered (m : PveParams) : Prop :=
  List.Chain' (fun a b : String × String => a.1 < b.1) m

/-- `normalize_api_path` from `src/core/transport.rs`. -/
def normalizeApiPath (path : String) : String :=
  if leadsWith "/api2/json".toList path.toList then path
  else if leadsWith ['/'] path.toList then "/api2/json" ++ path
  else "/api2/json/" ++ path

/-- JSON values. Numbers are kept as their raw source token, which is all
the claims under verification inspect. -/
inductive Json where
  | null
  | bool (b : Bool)
  | num (raw : String)
  | str (s : String)
  | arr (items : List Json)
  | obj (fields : List (String × Json))
  deriving Repr

/-- JSON insignificant whitespace (RFC 8259). -/
def jsonWs (c : Char) : Bool :=
  c == ' ' || c == '\t' || c == '\n' || c == '\r'

/-- Hex digit value. -/
def hexVal (c : Char) : Option Nat :=
  if '0' ≤ c ∧ c ≤ '9' then some (c.toNat - '0'.toNat)
  else if 'a' ≤ c ∧ c ≤ 'f' then some (c.toNat - 'a'.toNat + 10)
  else if 'A' ≤ c ∧ c ≤ 'F' then some (c.toNat - 'A'.toNat + 10)
  else none

/-- Decode the body of a JSON string literal after the opening quote,
modelling `serde_json`'s string handling: escape sequences, the
surrogate-pair rule for `\uXXXX`, and rejection of unescaped control
characters. Returns the decoded characters and the input after the
closing quote. -/
def parseStringBody (fuel : Nat) (l : List Char) : Option (List Char × List Char) :=
  match fuel with
  | 0 => none
  | fuel + 1 =>
    match l with
    | [] => none
    | '"' :: rest => some ([], rest)
    | '\\' :: e :: rest =>
      match e with
      | '"' => (parseStringBody fuel rest).map (fun p => ('"' :: p.1, p.2))
      | '\\' => (parseStringBody fuel rest).map (fun p => ('\\' :: p.1, p.2))
      | '/' => (parseStringBody fuel rest).map (fun p => ('/' :: p.1, p.2))
      | 'b' => (parseStringBody fuel rest).map (fun p => (Char.ofNat 8 :: p.1, p.2))
      | 'f' => (parseStringBody fuel rest).map (fun p => (Char.ofNat 12 :: p.1, p.2))
      | 'n' => (parseStringBody fuel rest).map (fun p => ('\n' :: p.1, p.2))
      | 'r' => (parseStringBody fuel rest).map (fun p => ('\r' :: p.1, p.2))
      | 't' => (parseStringBody fuel rest).map (fun p => ('\t' :: p.1, p.2))
      | 'u' =>
        match rest with
        | a :: b :: c :: d :: rest2 =>
          match hexVal a, hexVal b, hexVal c, hexVal d with
          | some ha, some hb, some hc, some hd =>
            let n := ((ha * 16 + hb) * 16 + hc) * 16 + hd
            if 0xD800 ≤ n ∧ n ≤ 0xDBFF then
              match rest2 with
              | '\\' :: 'u' :: a2 :: b2 :: c2 :: d2 :: rest3 =>
                match hexVal a2, hexVal b2, hexVal c2, hexVal d2 with
                | some ha2, some hb2, some hc2, some hd2 =>
                  let n2 := ((ha2 * 16 + hb2) * 16 + hc2) * 16 + hd2
                  if 0xDC00 ≤ n2 ∧ n2 ≤ 0xDFFF then
                    let cp := 0x10000 + (n - 0xD800) * 0x400 + (n2 - 0xDC00)
                    (parseStringBody fuel rest3).map (fun p => (Char.ofNat cp :: p.1, p.2))
                  else none
                | _, _, _, _ => none
              | _ => none
            else if 0xDC00 ≤ n ∧ n ≤ 0xDFFF then none
            else (parseStringBody fuel rest2).map (fun p => (Char.ofNat n :: p.1, p.2))
          | _, _, _, _ => none
        | _ => none
      | _ => none
    | c :: rest =>
      if c.toNat < 0x20 then none
      else (parseStringBody fuel rest).map (fun p => (c :: p.1, p.2))

/-- JSON number grammar (RFC 8259): `-? int frac? exp?`. Returns the raw
token and the remaining input. -/
def parseNumberToken (l : List Char) : Option (List Char × List Char) :=
  let step1 :=
    match l with
    | '-' :: rest => some (['-'], rest)
    | _ => some (([] : List Char), l)
  match step1 with
  | none => none
  | some (sign, l1) =>
    let intPart :=
      match l1 with
      | '0' :: rest => some (['0'], rest)
      | c :: _ =>
        if '1' ≤ c ∧ c ≤ '9' then
          some (l1.takeWhile Char.isDigit, l1.dropWhile Char.isDigit)
        else none
      | [] => none
    match intPart with
    | none => none
    | some (ip, l2) =>
      let fracPart :=
        match l2 with
        | '.' :: rest =>
          let ds := rest.takeWhile Char.isDigit
          if ds.isEmpty then none
          else some ('.' :: ds, rest.dropWhile Char.isDigit)
        | _ => some (([] : List Char), l2)
      match fracPart with
      | none => none
      | some (fp, l3) =>
        let expPart :=
          match l3 with
          | e :: rest =>
            if e = 'e' ∨ e = 'E' then
              let signedRest :=
                match rest with
                | s :: rest2 => if s = '+' ∨ s = '-' then ([s], rest2) else (([] : List Char), rest)
                | [] => (([] : List Char), rest)
              let ds := signedRest.2.takeWhile Char.isDigit
              if ds.isEmpty then none
              else some (e :: signedRest.1 ++ ds, signedRest.2.dropWhile Char.isDigit)
            else some (([] : List Char), l3)
          | [] => some (([] : List Char), l3)
        match expPart with
        | none => none
        | some (ep, l4) => some (sign ++ ip ++ fp ++ ep, l4)

mutual

/-- Recursive-descent JSON value parser modelling `serde_json::from_str`'s
grammar, including its nesting-depth limit (128). `fuel` only bounds the
recursion and is chosen large enough at the top level. -/
def parseJsonValue (fuel depth : Nat) (l : List Char) : Option (Json × List Char) :=
  match fuel with
  | 0 => none
  | fuel + 1 =>
    match l.dropWhile jsonWs with
    | 'n' :: 'u' :: 'l' :: 'l' :: rest => some (.null, rest)
    | 't' :: 'r' :: 'u' :: 'e' :: rest => some (.bool true, rest)
    | 'f' :: 'a' :: 'l' :: 's' :: 'e' :: rest => some (.bool false, rest)
    | '"' :: rest =>
      (parseStringBody (rest.length + 1) rest).map (fun p => (.str p.1.asString, p.2))
    | '[' :: rest =>
      if depth = 0 then none
      else
        match rest.dropWhile jsonWs with
        | ']' :: rest2 => some (.arr [], rest2)
        | _ => parseJsonArrayTail fuel (depth - 1) rest []
    | '{' :: rest =>
      if depth = 0 then none
      else
        match rest.dropWhile jsonWs with
        | '}' :: rest2 => some (.obj [], rest2)
        | _ => parseJsonObjTail fuel (depth - 1) rest []
    | c :: rest =>
      if c = '-' ∨ c.isDigit then
        (parseNumberToken (c :: rest)).map (fun p => (.num p.1.asString, p.2))
      else none
    | [] => none

/-- Parses the remaining elements of a non-empty JSON array. -/
def parseJsonArrayTail (fuel depth : Nat) (l : List Char) (acc : List Json) :
    Option (Json × List Char) :=
  match fuel with
  | 0 => none
  | fuel + 1 =>
    match parseJsonValue fuel depth l with
    | none => none
    | some (v, rest) =>
      match rest.dropWhile jsonWs with
      | ',' :: rest2 => parseJsonArrayTail fuel depth rest2 (v :: acc)
      | ']' :: rest2 => some (.arr (v :: acc).reverse, rest2)
      | _ => none

/-- Parses the remaining members of a non-empty JSON object. -/
def parseJsonObjTail (fuel depth : Nat) (l : List Char) (acc : List (String × Json)) :
    Option (Json × List Char) :=
  match fuel with
  | 0 => none
  | fuel + 1 =>
    match l.dropWhile jsonWs with
    | '"' :: rest =>
      match parseStringBody (rest.length + 1) rest with
      | none => none
      | some (key, rest2) =>
        match rest2.dropWhile jsonWs with
        | ':' :: rest3 =>
          match parseJsonValue fuel depth rest3 with
          | none => none
          | some (v, rest4) =>
            match rest4.dropWhile jsonWs with
            | ',' :: rest5 => parseJsonObjTail fuel depth rest5 ((key.asString, v) :: acc)
            | '}' :: rest5 => some (.obj ((key.asString, v) :: acc).reverse, rest5)
            | _ => none
        | _ => none
    | _ => none

end

/-- `serde_json::from_str` on a whole document: one value, surrounded only
by insignificant whitespace. -/
def jsonParse (s : String) : Option Json :=
  let l := s.toList
  match parseJsonValue (2 * l.length + 8) 128 l with
  | some (j, rest) => if (rest.dropWhile jsonWs).isEmpty then some j else none
  | none => none

/-- Deserialization of the `ApiEnvelope<T>` struct of `src/models.rs` from
an already-parsed JSON document: the document must be an object with
exactly one `data` member (serde rejects a duplicated field and a missing
field; unknown fields are ignored). Yields the raw JSON of the `data`
member. -/
def envelopeData (j : Json) : Option Json :=
  match j with
  | .obj fields =>
    match fields.filter (fun f => f.1 == "data") with
    | [(_, v)] => some v
    | _ => none
  | _ => none

/-- An HTTP response as observed by `execute` in `src/core/transport.rs`:
the status code and the body read as text. -/
structure HttpResponse where
  status : Nat
  body : String
  deriving Repr

/-- `execute` from `src/core/transport.rs`, after the response has been
received (`request.send()` / `response.text()` failures propagate before
this logic and are outside it). `decodePayload` stands for the
`T: DeserializeOwned` instance deserializing the `data` member. -/
def executeResponse {α : Type} (decodePayload : Json → Option α) (resp : HttpResponse) :
    Except PveError α :=
  if !(200 ≤ resp.status && resp.status < 300) then
    .error (.apiStatus resp.status resp.body)
  else
    match jsonParse resp.body with
    | none => .error (.decode "invalid json body")
    | some j =>
      match envelopeData j with
      | none => .error (.decode "body does not match the data envelope")
      | some d =>
        match decodePayload d with
        | some v => .ok v
        | none => .error (.decode "data payload does not match the target type")

/-- `TaskStatus` from `src/models.rs`. -/
structure TaskStatus where
  upid : Option String := none
  taskType : Option String := none
  status : String
  exitstatus : Option String := none
  user : Option String := none
  starttime : Option Nat := none
  node : Option String := none
  extra : List (String × Json) := []
  deriving Repr

/-- HTTP methods used by the client. -/
inductive Method where
  | GET
  | POST
  | PUT
  | DELETE
  | PATCH
  | HEAD
  deriving DecidableEq, Repr

/-- The mutating-verb test of `apply_auth` in `src/core/auth.rs`
(`matches!(method, POST | PUT | DELETE | PATCH)`). -/
def Method.isWrite : Method → Bool
  | .POST | .PUT | .DELETE | .PATCH => true
  | _ => false

/-- An HTTP header attached to an outgoing request. -/
structure Header where
  name : String
  value : String
  deriving DecidableEq, Repr

/-- The `Auth` enum of `src/core/auth.rs`. -/
inductive Auth where
  | none
  | apiToken (token : String)
  | ticket (ticket : String) (csrf : Option String)
  deriving Repr

/-- Validity of an HTTP header value, modelling the byte test of the
`http` crate's `HeaderValue::from_str` (horizontal tab, or any byte that
is at least 32 and not DEL; every byte of a multi-byte UTF-8 character
satisfies the latter). -/
def headerValueOkChar (c : Char) : Bool :=
  c.toNat == 9 || (Nat.ble 32 c.toNat && c.toNat != 127)

/-- `HeaderValue::from_str` succeeds exactly on strings of valid value
characters. -/
def headerValueOk (s : String) : Bool :=
  s.toList.all headerValueOkChar

/-- `apply_auth` from `src/core/auth.rs`. The `RequestBuilder` is
modelled by the list of headers attached so far; `request.header(..)`
appends. The `Cookie`/`CSRFPreventionToken` headers are handed to the
builder as plain strings in the source (their validation is deferred by
`reqwest` to send time), while the API-token header goes through
`HeaderValue::from_str` and its failure is mapped to `InvalidArgument`
right here. -/
def applyAuth (auth : Auth) (headers : List Header) (method : Method) :
    Except PveError (List Header) :=
  match auth with
  | .none => .ok headers
  | .apiToken token =>
    let value := "PVEAPIToken=" ++ token
    if headerValueOk value then .ok (headers ++ [⟨"Authorization", value⟩])
    else .error (.invalidArgument "invalid api token header value")
  | .ticket ticket csrf =>
    let headers1 := headers ++ [⟨"Cookie", "PVEAuthCookie=" ++ ticket⟩]
    if method.isWrite then
      match csrf with
      | Option.none => .error .missingCsrfToken
      | Option.some c => .ok (headers1 ++ [⟨"CSRFPreventionToken", c⟩])
    else .ok headers1

/-- Duration in nanoseconds → `Duration::as_secs`. -/
def durationAsSecs (nanos : Nat) : Nat :=
  nanos / 1000000000

/-- One iteration's environment for the poll loop of `wait_for_task`:
the outcome of the `task_status` query and the value of
`started.elapsed()` (in nanoseconds) at the timeout check that follows
it. -/
abbrev TaskPoll : Type := Except PveError TaskStatus × Nat

/-- `wait_for_task` from `src/services/operations/task.rs`, with the
sequence of poll outcomes supplied as an explicit trace. `none` means the
trace was exhausted with the loop still polling (the code would sleep and
query again). A query error propagates via `?`; on `status == "stopped"`
the record is classified by `exitstatus`; otherwise the loop times out
when `started.elapsed() > timeout`, returning `TaskTimeout` with
`timeout.as_secs()`. -/
def waitForTask (upid : String) (timeout : Option Nat) :
    List TaskPoll → Option (Except PveError TaskStatus)
  | [] => none
  | (res, elapsed) :: rest =>
    match res with
    | .error e => some (.error e)
    | .ok status =>
      if status.status == "stopped" then
        if status.exitstatus == some "OK" then some (.ok status)
        else some (.error (.taskFailed upid (status.exitstatus.getD "UNKNOWN")))
      else
        match timeout with
        | some t =>
          if t < elapsed then some (.error (.taskTimeout upid (durationAsSecs t)))
          else waitForTask upid timeout rest
        | none => waitForTask upid timeout rest

/-- The shared invalid-format message of `validate_api_token_format` in
`src/client_option.rs`. -/
def apiTokenFormatMsg : String :=
  "PVE_API_TOKEN format invalid, expected <user>@<realm>!<tokenid>=<secret>"

/-- `validate_api_token_format` from `src/client_option.rs`. -/
def validateApiTokenFormat (token : String) : Except PveError Unit :=
  match splitOnce '!' token.toList with
  | Option.none => .error (.invalidArgument apiTokenFormatMsg)
  | Option.some (userRealm, tokenPart) =>
    match splitOnce '@' userRealm with
    | Option.none => .error (.invalidArgument apiTokenFormatMsg)
    | Option.some (user, realm) =>
      match splitOnce '=' tokenPart with
      | Option.none => .error (.invalidArgument apiTokenFormatMsg)
      | Option.some (tokenId, secret) =>
        if user.isEmpty || realm.isEmpty || tokenId.isEmpty || secret.isEmpty then
          .error (.invalidArgument apiTokenFormatMsg)
        else .ok ()

/-- `has_non_empty` from `validate_acl_params` in
`src/services/operations/access.rs`. -/
def hasNonEmpty (params : PveParams) (key : String) : Bool :=
  match params.get key with
  | some v => !(isBlank v)
  | none => false

/-- The `delete_acl` truthiness test of `validate_acl_params`:
`v == "1" || v.eq_ignore_ascii_case("true")` on the (untrimmed) `delete`
entry. -/
def deleteFlag (params : PveParams) : Bool :=
  match params.get "delete" with
  | some v => v == "1" || eqIgnoreAsciiCase v "true"
  | none => false

/-- `validate_acl_params` from `src/services/operations/access.rs`
(called by `access_set_acl` before any request is sent). -/
def validateAclParams (params : PveParams) : Except PveError Unit :=
  if !(hasNonEmpty params "path") then
    .error (.invalidArgument "access acl requires non-empty path")
  else
    let hasTarget := hasNonEmpty params "users" || hasNonEmpty params "groups" ||
      hasNonEmpty params "tokens"
    if deleteFlag params then
      if !(hasNonEmpty params "roles" || hasTarget) then
        .error (.invalidArgument "access acl delete requires at least one of roles/users/groups/tokens")
      else .ok ()
    else if !(hasNonEmpty params "roles") then
      .error (.invalidArgument "access acl set requires non-empty roles")
    else if !hasTarget then
      .error (.invalidArgument "access acl set requires at least one of users/groups/tokens")
    else .ok ()

/-- The components of a parsed absolute URL, as observed through the
accessors `build_base_url` uses (`port()` is `none` when the port is the
scheme's default, matching the url crate's default-port elision). -/
structure UrlParts where
  scheme : String
  username : String
  password : Option String
  host : String
  port : Option Nat
  path : String
  query : Option String
  fragment : Option String
  deriving Repr

/-- Models the slice of the external `url` crate's `Url::parse` exercised
by `build_base_url`: absolute `http`/`https` URLs, split into userinfo
(at the last `@` of the authority), host (brackets kept for IPv6
literals, ASCII-lowercased), port (digits only, at most 65535, elided
when equal to the scheme default), path (empty becomes `/`, backslashes
count as path separators as in the WHATWG grammar), query and fragment.
Host-character validation, IDNA and percent-decoding are not modelled
(the model is permissive there); concrete evaluations in the theorems
below only use hosts on which the real parser agrees. -/
def urlParse (l : List Char) : Option UrlParts :=
  let schemeInfo : Option (String × Nat × List Char) :=
    if leadsWith "https://".toList l then some ("https", 443, l.drop 8)
    else if leadsWith "http://".toList l then some ("http", 80, l.drop 7)
    else none
  match schemeInfo with
  | none => none
  | some (scheme, defaultPort, rest) =>
    let isAuthEnd : Char → Bool := fun c => c == '/' || c == '\\' || c == '?' || c == '#'
    let auth := rest.takeWhile (fun c => !(isAuthEnd c))
    let tail := rest.dropWhile (fun c => !(isAuthEnd c))
    let userHost : List Char × List Char :=
      match splitOnce '@' auth.reverse with
      | some (hostportRev, userinfoRev) => (userinfoRev.reverse, hostportRev.reverse)
      | none => ([], auth)
    let userinfo := userHost.1
    let hostport := userHost.2
    let hadUserinfo := auth.contains '@'
    let creds : String × Option String :=
      if hadUserinfo then
        match splitOnce ':' userinfo with
        | some (u, p) => (u.asString, if p.isEmpty then none else some p.asString)
        | none => (userinfo.asString, none)
      else ("", none)
    let hostPart : Option (List Char × List Char) :=
      match hostport with
      | '[' :: rest1 =>
        match splitOnce ']' rest1 with
        | some (v6, after) =>
          if v6.isEmpty then none
          else some ('[' :: v6 ++ [']'], after)
        | none => none
      | _ =>
        match splitOnce ':' hostport with
        | some (h, ps) => some (h, ':' :: ps)
        | none => some (hostport, [])
    match hostPart with
    | none => none
    | some (hostRaw, afterHost) =>
      if hostRaw.isEmpty then none
      else
        let portVal : Option (Option Nat) :=
          match afterHost with
          | [] => some none
          | ':' :: ps =>
            if ps.isEmpty then some none
            else if ps.all Char.isDigit then
              let n := ps.foldl (fun acc c => acc * 10 + (c.toNat - 48)) 0
              if n < 65536 then
                if n = defaultPort then some none else some (some n)
              else none
            else none
          | _ => none
        match portVal with
        | none => none
        | some port =>
          let pathRaw := tail.takeWhile (fun c => !(c == '?' || c == '#'))
          let afterPath := tail.dropWhile (fun c => !(c == '?' || c == '#'))
          let path :=
            if pathRaw.isEmpty then "/"
            else (pathRaw.map (fun c => if c = '\\' then '/' else c)).asString
          let queryFrag : Option String × Option String :=
            match afterPath with
            | '?' :: qf =>
              let q := qf.takeWhile (fun c => !(c == '#'))
              let afterQ := qf.dropWhile (fun c => !(c == '#'))
              (some q.asString,
                match afterQ with
                | '#' :: f => some f.asString
                | _ => none)
            | '#' :: f => (none, some f.asString)
            | _ => (none, none)
          some {
            scheme := scheme
            username := creds.1
            password := creds.2
            host := (hostRaw.map asciiLower).asString
            port := port
            path := path
            query := queryFrag.1
            fragment := queryFrag.2
          }

/-- `build_base_url` from `src/core/transport.rs`. The returned value is
the serialization of the validated base URL. -/
def buildBaseUrl (host : String) (port : Nat) (https : Bool) : Except PveError String :=
  let h0 := rustTrim host.toList
  let schemeStep : Except PveError (List Char) :=
    if leadsWith "https://".toList h0 || leadsWith "http://".toList h0 then
      match urlParse h0 with
      | none =>
        .error (.invalidBaseUrl "invalid host URL, expected a hostname or IP without path/port")
      | some parsed =>
        if parsed.port.isSome then
          .error (.invalidBaseUrl "host must not include port, use ClientOption::port()")
        else if parsed.path ≠ "/" then
          .error (.invalidBaseUrl "host must not include path, use API methods with relative paths")
        else if parsed.query.isSome || parsed.fragment.isSome then
          .error (.invalidBaseUrl "host must not include query or fragment")
        else if !parsed.username.isEmpty || parsed.password.isSome then
          .error (.invalidBaseUrl "host must not include credentials")
        else .ok parsed.host.toList
    else .ok h0
  match schemeStep with
  | .error e => .error e
  | .ok h1 =>
    let h2 := dropTrailingSlashes h1
    if h2.contains '/' then
      .error (.invalidBaseUrl "host must not include path, use ClientOption::host(\"pve.example.com\")")
    else if h2.contains '?' || h2.contains '#' then
      .error (.invalidBaseUrl "host must not include query or fragment")
    else if h2.contains '@' then
      .error (.invalidBaseUrl "host must not include credentials")
    else if hasBracketColon h2 || (countC ':' h2 == 1 && !(leadsWith ['['] h2)) then
      .error (.invalidBaseUrl "host must not include port, use ClientOption::port()")
    else
      let h3 :=
        if Nat.blt 1 (countC ':' h2) && !(leadsWith ['['] h2) && !(trailsWith [']'] h2) then
          '[' :: h2 ++ [']']
        else h2
      if h3.isEmpty then .error (.invalidBaseUrl "host is empty")
      else
        let scheme := if https then "https" else "http"
        let base := scheme ++ "://" ++ h3.asString ++ ":" ++ toString port ++ "/"
        match urlParse base.toList with
        | some _ => .ok base
        | none => .error (.invalidBaseUrl base)

/-- The `ApiToken` arm of `PveClient::from_option` in `src/client.rs`:
validate the token shape, then store it as `Auth::ApiToken`. -/
def resolveApiTokenAuth (token : String) : Except PveError Auth :=
  match validateApiTokenFormat token with
  | .ok _ => .ok (.apiToken token)
  | .error e => .error e

/-- Claim-level predicate: the map has an entry for `key` whose value is
not blank (not whitespace-only). -/
def NonBlankEntry (params : PveParams) (key : String) : Prop :=
  ∃ v, params.get key = some v ∧ isBlank v = false

/-- Claim-level predicate: the token matches
`<user>@<realm>!<tokenid>=<secret>` with all four segments non-empty,
reading the shape left to right (so the separators are the first `!`, the
first `@` before it, and the first `=` after it). -/
def ApiTokenShaped (token : String) : Prop :=
  ∃ u r i s : List Char,
    token.toList = u ++ '@' :: r ++ '!' :: i ++ '=' :: s ∧
    u ≠ [] ∧ r ≠ [] ∧ i ≠ [] ∧ s ≠ [] ∧
    '@' ∉ u ∧ '!' ∉ u ∧ '!' ∉ r ∧ '=' ∉ i

/-- The host string is written as an absolute URL with an explicit
scheme. -/
def SchemePrefixed (s : String) : Prop :=
  leadsWith "https://".toList s.toList = true ∨ leadsWith "http://".toList s.toList = true

/-- Claim-level predicate: the host string carries an embedded port — a
bracketed IPv6 literal followed by `:`, or `host:digits` for a host
without further colons and not written in bracket form. -/
def HasEmbeddedPort (s : String) : Prop :=
  (∃ a b, s.toList = a ++ ']' :: ':' :: b) ∨
  (∃ h d, s.toList = h ++ ':' :: d ∧ d ≠ [] ∧ (∀ c ∈ d, c.isDigit = true) ∧
    ':' ∉ h ∧ leadsWith ['['] s.toList = false)

/-- Claim-level predicate: the host string carries an embedded path — a
`/` followed somewhere by a non-`/` character (a trailing run of slashes
alone denotes no path segment). -/
def HasEmbeddedPath (s : String) : Prop :=
  ∃ a b, s.toList = a ++ '/' :: b ∧ ∃ c ∈ b, c ≠ '/'

/-- Claim-level predicate: the host string carries an embedded query or
fragment marker. -/
def HasEmbeddedQueryOrFragment (s : String) : Prop :=
  '?' ∈ s.toList ∨ '#' ∈ s.toList

/-- Claim-level predicate: the host string carries embedded
credentials. -/
def HasEmbeddedCredentials (s : String) : Prop :=
  '@' ∈ s.toList

/-! ## Lemmas about the parameter map -/

theorem PveParams.get_insert (m : PveParams) (k k2 v : String) :
    (m.insert k v).get k2 = if k = k2 then some v else m.get k2 := by
  induction m with
  | nil => simp [PveParams.insert, PveParams.get]
  | cons hd tl ih =>
    obtain ⟨k1, v1⟩ := hd
    simp only [PveParams.insert]
    by_cases h1 : k < k1
    · simp only [if_pos h1, PveParams.get]
    · by_cases h2 : k = k1
      · subst h2
        simp only [if_neg h1, if_pos rfl, PveParams.get]
        by_cases hB : k = k2 <;> simp [hB]
      · simp only [if_neg h1, if_neg h2, PveParams.get, ih]
        by_cases hA : k1 = k2 <;> by_cases hB : k = k2
        · exact absurd (hB.trans hA.symm) h2
        · simp [hA, hB]
        · simp [hA, hB]
        · simp [hA, hB]

theorem PveParams.get_eq_none_of_not_mem (m : PveParams) (k : String)
    (h : k ∉ m.map Prod.fst) : m.get k = none := by
  induction m with
  | nil => rfl
  | cons hd tl ih =>
    obtain ⟨k1, v1⟩ := hd
    simp only [List.map_cons, List.mem_cons] at h
    push_neg at h
    have h1 : ¬ k1 = k := fun hh => h.1 hh.symm
    simp [PveParams.get, h1, ih h.2]

theorem PveParams.get_extend_of_get_eq_none (other : PveParams) (k : String) :
    ∀ m : PveParams, other.get k = none → (m.extend other).get k = m.get k := by
  induction other with
  | nil => intro m _; rfl
  | cons hd tl ih =>
    intro m h
    obtain ⟨k1, v1⟩ := hd
    have h1 : ¬ k1 = k := by
      intro hh
      simp [PveParams.get, hh] at h
    have h2 : PveParams.get tl k = none := by
      simpa [PveParams.get, h1] using h
    show (PveParams.extend (m.insert k1 v1) tl).get k = m.get k
    rw [ih _ h2, PveParams.get_insert]
    simp [h1]

theorem PveParams.get_extend_of_get_eq_some (other : PveParams) (k v : String) :
    ∀ m : PveParams, (other.map Prod.fst).Nodup → other.get k = some v →
      (m.extend other).get k = some v := by
  induction other with
  | nil => intro m _ h; simp [PveParams.get] at h
  | cons hd tl ih =>
    intro m hnd h
    obtain ⟨k1, v1⟩ := hd
    simp only [List.map_cons, List.nodup_cons] at hnd
    by_cases h1 : k1 = k
    · subst h1
      have hv : v1 = v := by simpa [PveParams.get] using h
      subst hv
      have htl : PveParams.get tl k1 = none :=
        PveParams.get_eq_none_of_not_mem tl k1 hnd.1
      show (PveParams.extend (m.insert k1 v1) tl).get k1 = some v1
      rw [PveParams.get_extend_of_get_eq_none tl k1 _ htl, PveParams.get_insert]
      simp
    · have htl : PveParams.get tl k = some v := by
        simpa [PveParams.get, h1] using h
      show (PveParams.extend (m.insert k1 v1) tl).get k = some v
      exact ih _ hnd.2 htl

/-! ## List helper lemmas -/

theorem leadsWith_append (l t : List Char) : leadsWith l (l ++ t) = true := by
  induction l with
  | nil => rfl
  | cons c cs ih => simp [leadsWith, ih]

theorem strToList_append (a b : String) : (a ++ b).toList = a.toList ++ b.toList := by
  cases a
  cases b
  rfl

/-! ## C9: parameter map contract -/

/-- C9: `insert` overwrites so only the last inserted value remains;
`insert_opt` with an absent value is a no-op; `insert_bool` stores
exactly `"1"`/`"0"`; `extend` merges with the other map's values winning
on collision while keys absent from the other map are unchanged. -/
theorem c9_params_contract :
    (∀ (m : PveParams) (k v : String), (m.insert k v).get k = some v)
  ∧ (∀ (m : PveParams) (k v v2 : String), ((m.insert k v).insert k v2).get k = some v2)
  ∧ (∀ (m : PveParams) (k : String), m.insertOpt k Option.none = m)
  ∧ (∀ (m : PveParams) (k : String) (b : Bool),
      (m.insertBool k b).get k = some (if b then "1" else "0"))
  ∧ (∀ (m other : PveParams) (k v : String),
      (other.map Prod.fst).Nodup → other.get k = some v → (m.extend other).get k = some v)
  ∧ (∀ (m other : PveParams) (k : String),
      other.get k = none → (m.extend other).get k = m.get k) := by
  refine ⟨?_, ?_, ?_, ?_, ?_, ?_⟩
  · intro m k v
    rw [PveParams.get_insert]
    simp
  · intro m k v v2
    rw [PveParams.get_insert]
    simp
  · intro m k
    rfl
  · intro m k b
    rw [PveParams.insertBool, PveParams.get_insert]
    simp
  · intro m other k v hnd h
    exact PveParams.get_extend_of_get_eq_some other k v m hnd h
  · intro m other k h
    exact PveParams.get_extend_of_get_eq_none other k m h

/-- Witness for C9 at concrete maps. -/
theorem c9_params_contract_witness :
    (PveParams.get (PveParams.extend [("a", "1")] [("a", "2"), ("b", "3")]) "a" = some "2") ∧
    (PveParams.get (PveParams.extend [("a", "1")] [("b", "3")]) "a" = some "1") := by
  constructor
  · exact c9_params_contract.2.2.2.2.1 [("a", "1")] [("a", "2"), ("b", "3")] "a" "2"
      (by decide) (by decide)
  · exact c9_params_contract.2.2.2.2.2 [("a", "1")] [("b", "3")] "a" (by decide)

/-! ## C7: path normalization -/

/-- C7: `normalize_api_path` is idempotent, leaves an already-prefixed
path unchanged, and every output starts with the API namespace prefix
`/api2/json`. -/
theorem c7_normalize_path_idempotent (p : String) :
    normalizeApiPath (normalizeApiPath p) = normalizeApiPath p ∧
    (leadsWith "/api2/json".toList p.toList = true → normalizeApiPath p = p) ∧
    leadsWith "/api2/json".toList (normalizeApiPath p).toList = true := by
  by_cases h1 : leadsWith "/api2/json".toList p.toList = true
  · have hval : normalizeApiPath p = p := by
      unfold normalizeApiPath
      rw [if_pos h1]
    refine ⟨?_, fun _ => hval, ?_⟩
    · rw [hval, hval]
    · rw [hval]
      exact h1
  · by_cases h2 : leadsWith ['/'] p.toList = true
    · have hval : normalizeApiPath p = "/api2/json" ++ p := by
        unfold normalizeApiPath
        rw [if_neg h1, if_pos h2]
      have hpre : leadsWith "/api2/json".toList ("/api2/json" ++ p).toList = true := by
        rw [strToList_append]
        exact leadsWith_append _ _
      refine ⟨?_, fun hcontra => absurd hcontra h1, ?_⟩
      · rw [hval]
        unfold normalizeApiPath
        rw [if_pos hpre]
      · rw [hval]
        exact hpre
    · have hval : normalizeApiPath p = "/api2/json/" ++ p := by
        unfold normalizeApiPath
        rw [if_neg h1, if_neg h2]
      have hsplit : ("/api2/json/" ++ p).toList = "/api2/json".toList ++ ('/' :: p.toList) := by
        rw [strToList_append]
        show "/api2/json".toList ++ ['/'] ++ p.toList = _
        rw [List.append_assoc]
        rfl
      have hpre : leadsWith "/api2/json".toList ("/api2/json/" ++ p).toList = true := by
        rw [hsplit]
        exact leadsWith_append _ _
      refine ⟨?_, fun hcontra => absurd hcontra h1, ?_⟩
      · rw [hval]
        unfold normalizeApiPath
        rw [if_pos hpre]
      · rw [hval]
        exact hpre

/-- Witness for C7 at a concrete already-prefixed path. -/
theorem c7_normalize_path_witness :
    normalizeApiPath "/api2/json/version" = "/api2/json/version" :=
  (c7_normalize_path_idempotent "/api2/json/version").2.1 (by decide)

/-! ## C1: task terminal classification -/

/-- C1: when a poll returns a record with status `"stopped"`,
`wait_for_task` succeeds with the full record if `exitstatus` is `"OK"`,
fails with `TaskFailed` carrying the job id and the exit status if it is
present but not `"OK"`, and fails with `TaskFailed` carrying `"UNKNOWN"`
if it is absent (absence is never success). -/
theorem c1_task_terminal_classification (upid : String) (timeout : Option Nat)
    (s : TaskStatus) (elapsed : Nat) (rest : List TaskPoll)
    (hstop : s.status = "stopped") :
    (s.exitstatus = some "OK" →
      waitForTask upid timeout ((.ok s, elapsed) :: rest) = some (.ok s)) ∧
    (∀ x, s.exitstatus = some x → x ≠ "OK" →
      waitForTask upid timeout ((.ok s, elapsed) :: rest) =
        some (.error (.taskFailed upid x))) ∧
    (s.exitstatus = none →
      waitForTask upid timeout ((.ok s, elapsed) :: rest) =
        some (.error (.taskFailed upid "UNKNOWN"))) := by
  refine ⟨?_, ?_, ?_⟩
  · intro hok
    simp [waitForTask, hstop, hok]
  · intro x hx hne
    simp [waitForTask, hstop, hx, hne]
  · intro habs
    simp [waitForTask, hstop, habs]

/-- Witness for C1: a stopped record without `exitstatus` fails with the
`"UNKNOWN"` placeholder. -/
theorem c1_task_terminal_classification_witness :
    waitForTask "UPID:w1" (some 1000)
        [(.ok (TaskStatus.mk Option.none Option.none "stopped" Option.none Option.none
          Option.none Option.none []), 5)] =
      some (.error (.taskFailed "UPID:w1" "UNKNOWN")) :=
  (c1_task_terminal_classification "UPID:w1" (some 1000) _ 5 [] rfl).2.2 rfl

/-! ## C4: the timeout error payload -/

/-- C4 is refuted at a concrete input: with a 2 s timeout and a first
poll observed at 5 s elapsed, the error carries `2` (the configured
timeout, `timeout.as_secs()`), not the elapsed `5` seconds the claim
requires. -/
theorem c4_timeout_counterexample :
    waitForTask "UPID:c4" (some 2000000000)
        [(.ok (TaskStatus.mk Option.none Option.none "running" Option.none Option.none
          Option.none Option.none []), 5000000000)] =
      some (.error (.taskTimeout "UPID:c4" 2)) ∧
    durationAsSecs 5000000000 = 5 ∧ (2 : Nat) ≠ 5 :=
  ⟨rfl, rfl, by decide⟩

/-- C4 amended: whenever `wait_for_task` terminates on a trace on which
the job never reports `"stopped"`, the result is a `TaskTimeout` error
carrying the job id and the caller's configured timeout converted to
whole seconds (`timeout.as_secs()`), not the elapsed time. -/
theorem c4_timeout_carries_configured_bound (upid : String) (t : Nat) :
    ∀ polls : List TaskPoll,
      (∀ p ∈ polls, ∃ s e, p = (.ok s, e) ∧ s.status ≠ "stopped") →
      ∀ r, waitForTask upid (some t) polls = some r →
        r = .error (.taskTimeout upid (durationAsSecs t)) := by
  intro polls
  induction polls with
  | nil =>
    intro _ r hr
    simp [waitForTask] at hr
  | cons hd tl ih =>
    intro hpolls r hr
    obtain ⟨s, e, rfl, hs⟩ := hpolls hd (by simp)
    have hb : (s.status == "stopped") = false := by
      simpa using hs
    by_cases hto : t < e
    · rw [waitForTask] at hr
      simp [hb, hto] at hr
      exact hr.symm
    · rw [waitForTask] at hr
      simp [hb, hto] at hr
      exact ih (fun p hp => hpolls p (by simp [hp])) r hr

/-- Witness for C4 amended at a concrete trace. -/
theorem c4_timeout_carries_configured_bound_witness :
    ∃ r, waitForTask "UPID:c4w" (some 1000000000)
        [(.ok (TaskStatus.mk Option.none Option.none "running" Option.none Option.none
          Option.none Option.none []), 2000000000)] = some r ∧
      r = .error (.taskTimeout "UPID:c4w" (durationAsSecs 1000000000)) := by
  refine ⟨.error (.taskTimeout "UPID:c4w" 1), rfl, ?_⟩
  exact c4_timeout_carries_configured_bound "UPID:c4w" 1000000000
    [(.ok (TaskStatus.mk Option.none Option.none "running" Option.none Option.none
      Option.none Option.none []), 2000000000)]
    (by
      intro p hp
      exact ⟨_, 2000000000, List.mem_singleton.mp hp, by decide⟩)
    (.error (.taskTimeout "UPID:c4w" 1)) rfl

/-! ## C2: authentication header selection -/

/-- C2: no auth attaches nothing; API-token auth attaches the token
header regardless of verb; ticket auth always attaches the
session-ticket cookie, requires the anti-CSRF token on the mutating
verbs POST/PUT/DELETE/PATCH (failing with `MissingCsrfToken` before the
request is sent when it is absent) and attaches it when present; GET
never requires it. -/
theorem c2_auth_header_selection (m : Method) (hs : List Header) :
    (applyAuth .none hs m = .ok hs)
  ∧ (∀ tk, headerValueOk ("PVEAPIToken=" ++ tk) = true →
      applyAuth (.apiToken tk) hs m =
        .ok (hs ++ [⟨"Authorization", "PVEAPIToken=" ++ tk⟩]))
  ∧ (∀ t, m.isWrite = true →
      applyAuth (.ticket t Option.none) hs m = .error .missingCsrfToken)
  ∧ (∀ t c, m.isWrite = true →
      applyAuth (.ticket t (Option.some c)) hs m =
        .ok (hs ++ [⟨"Cookie", "PVEAuthCookie=" ++ t⟩, ⟨"CSRFPreventionToken", c⟩]))
  ∧ (∀ t c, m.isWrite = false →
      applyAuth (.ticket t c) hs m = .ok (hs ++ [⟨"Cookie", "PVEAuthCookie=" ++ t⟩]))
  ∧ (Method.isWrite .POST = true ∧ Method.isWrite .PUT = true ∧
     Method.isWrite .DELETE = true ∧ Method.isWrite .PATCH = true ∧
     Method.isWrite .GET = false) := by
  refine ⟨rfl, ?_, ?_, ?_, ?_, rfl, rfl, rfl, rfl, rfl⟩
  · intro tk hok
    simp [applyAuth, hok]
  · intro t hw
    simp [applyAuth, hw]
  · intro t c hw
    simp [applyAuth, hw]
  · intro t c hw
    simp [applyAuth, hw]

/-- Witness for C2 at concrete credentials and verbs. -/
theorem c2_auth_header_selection_witness :
    (applyAuth (.apiToken "root@pam!ci=secret") [] .GET =
      .ok [⟨"Authorization", "PVEAPIToken=root@pam!ci=secret"⟩]) ∧
    (applyAuth (.ticket "PVE:tkt" Option.none) [] .POST = .error .missingCsrfToken) ∧
    (applyAuth (.ticket "PVE:tkt" Option.none) [] .GET =
      .ok [⟨"Cookie", "PVEAuthCookie=PVE:tkt"⟩]) := by
  refine ⟨?_, ?_, ?_⟩
  · exact (c2_auth_header_selection .GET []).2.1 "root@pam!ci=secret" (by decide)
  · exact (c2_auth_header_selection .POST []).2.2.1 "PVE:tkt" rfl
  · exact (c2_auth_header_selection .GET []).2.2.2.2.1 "PVE:tkt" Option.none rfl

/-! ## Lemmas about the ACL validator -/

theorem hasNonEmpty_iff (params : PveParams) (key : String) :
    hasNonEmpty params key = true ↔ NonBlankEntry params key := by
  unfold hasNonEmpty NonBlankEntry
  cases h : params.get key with
  | none => simp
  | some v => simp [Bool.not_eq_true']

theorem validateAclParams_ok_iff (params : PveParams) :
    validateAclParams params = .ok () ↔
      (hasNonEmpty params "path" = true ∧
        ((deleteFlag params = true ∧
          (hasNonEmpty params "roles" = true ∨ hasNonEmpty params "users" = true ∨
           hasNonEmpty params "groups" = true ∨ hasNonEmpty params "tokens" = true)) ∨
         (deleteFlag params = false ∧ hasNonEmpty params "roles" = true ∧
          (hasNonEmpty params "users" = true ∨ hasNonEmpty params "groups" = true ∨
           hasNonEmpty params "tokens" = true)))) := by
  unfold validateAclParams
  cases hpath : hasNonEmpty params "path" <;>
    cases hdel : deleteFlag params <;>
      cases hr : hasNonEmpty params "roles" <;>
        cases hu : hasNonEmpty params "users" <;>
          cases hg : hasNonEmpty params "groups" <;>
            cases ht : hasNonEmpty params "tokens" <;>
              simp [hpath, hdel, hr, hu, hg, ht]

theorem validateAclParams_path_blank (params : PveParams)
    (h : hasNonEmpty params "path" = false) :
    validateAclParams params =
      .error (.invalidArgument "access acl requires non-empty path") := by
  unfold validateAclParams
  rw [h]
  rfl

theorem isBlank_of_all_ws (v : String) (h : ∀ c ∈ v.toList, isWs c = true) :
    isBlank v = true := by
  unfold isBlank rustTrim
  have h1 : v.toList.dropWhile isWs = [] := by
    rw [List.dropWhile_eq_nil_iff]
    exact h
  rw [h1]
  rfl

/-! ## C3: ACL validation matrix -/

/-- C3: a blank or absent path is an `InvalidArgument` error for both
set and delete; with a truthy delete flag, validation succeeds iff roles
is non-blank or at least one of users/groups/tokens is; with a
non-truthy delete flag (a set), validation succeeds iff roles is
non-blank and at least one of users/groups/tokens is. -/
theorem c3_acl_validation_matrix (params : PveParams) :
    (¬ NonBlankEntry params "path" →
      ∃ msg, validateAclParams params = .error (.invalidArgument msg))
  ∧ (NonBlankEntry params "path" → deleteFlag params = true →
      (validateAclParams params = .ok () ↔
        (NonBlankEntry params "roles" ∨ NonBlankEntry params "users" ∨
         NonBlankEntry params "groups" ∨ NonBlankEntry params "tokens")))
  ∧ (NonBlankEntry params "path" → deleteFlag params = false →
      (validateAclParams params = .ok () ↔
        (NonBlankEntry params "roles" ∧ (NonBlankEntry params "users" ∨
         NonBlankEntry params "groups" ∨ NonBlankEntry params "tokens")))) := by
  refine ⟨?_, ?_, ?_⟩
  · intro hnb
    have hpath : hasNonEmpty params "path" = false := by
      cases hb : hasNonEmpty params "path"
      · rfl
      · exact absurd ((hasNonEmpty_iff _ _).mp hb) hnb
    exact ⟨_, validateAclParams_path_blank params hpath⟩
  · intro hp hd
    have hpath : hasNonEmpty params "path" = true := (hasNonEmpty_iff _ _).mpr hp
    rw [validateAclParams_ok_iff]
    simp [hpath, hd, hasNonEmpty_iff]
  · intro hp hd
    have hpath : hasNonEmpty params "path" = true := (hasNonEmpty_iff _ _).mpr hp
    rw [validateAclParams_ok_iff]
    simp [hpath, hd, hasNonEmpty_iff]

/-- Witness for C3 at concrete parameter maps: delete with only roles
succeeds; a blank path is rejected. -/
theorem c3_acl_validation_matrix_witness :
    (validateAclParams [("delete", "1"), ("path", "/vms"), ("roles", "PVEVMAdmin")] = .ok ()) ∧
    (∃ msg, validateAclParams [("path", "   "), ("roles", "r"), ("users", "u")] =
      .error (.invalidArgument msg)) := by
  constructor
  · exact ((c3_acl_validation_matrix
        [("delete", "1"), ("path", "/vms"), ("roles", "PVEVMAdmin")]).2.1
        ⟨"/vms", by decide, by decide⟩ (by decide)).mpr
      (Or.inl ⟨"PVEVMAdmin", by decide, by decide⟩)
  · refine (c3_acl_validation_matrix
      [("path", "   "), ("roles", "r"), ("users", "u")]).1 ?_
    rintro ⟨v, hv, hb⟩
    have hval : PveParams.get [("path", "   "), ("roles", "r"), ("users", "u")] "path" =
        some "   " := by decide
    rw [hval] at hv
    have hv2 := Option.some.inj hv
    subst hv2
    exact absurd hb (by decide)

/-! ## C10: delete-flag truthiness and blankness -/

/-- C10: the delete entry is truthy exactly when it is `"1"` or equals
`"true"` ASCII-case-insensitively; with any other value, or with the
entry absent, the request is validated under the set rules; a
whitespace-only value counts as blank for the validated keys. -/
theorem c10_delete_truthiness (params : PveParams) :
    (deleteFlag params = true ↔
      ∃ v, params.get "delete" = some v ∧
        (v = "1" ∨ v.toList.map asciiLower = "true".toList))
  ∧ (params.get "delete" = none → deleteFlag params = false)
  ∧ (∀ v, params.get "delete" = some v → v ≠ "1" →
      ¬ v.toList.map asciiLower = "true".toList →
      NonBlankEntry params "path" →
      (validateAclParams params = .ok () ↔
        (NonBlankEntry params "roles" ∧ (NonBlankEntry params "users" ∨
         NonBlankEntry params "groups" ∨ NonBlankEntry params "tokens"))))
  ∧ (∀ key v, params.get key = some v → (∀ c ∈ v.toList, isWs c = true) →
      hasNonEmpty params key = false) := by
  have hmaptrue : "true".toList.map asciiLower = "true".toList := by decide
  refine ⟨?_, ?_, ?_, ?_⟩
  · constructor
    · intro ht
      unfold deleteFlag at ht
      cases h : params.get "delete" with
      | none => rw [h] at ht; cases ht
      | some v =>
        rw [h] at ht
        refine ⟨v, rfl, ?_⟩
        rw [Bool.or_eq_true] at ht
        rcases ht with h1 | h1
        · exact Or.inl (eq_of_beq h1)
        · right
          unfold eqIgnoreAsciiCase at h1
          rw [hmaptrue] at h1
          exact eq_of_beq h1
    · rintro ⟨v, hv, hcase⟩
      unfold deleteFlag
      rw [hv]
      rcases hcase with h1 | h1
      · subst h1
        simp
      · have h2 : eqIgnoreAsciiCase v "true" = true := by
          unfold eqIgnoreAsciiCase
          rw [hmaptrue, h1]
          simp
        simp [h2]
  · intro h
    unfold deleteFlag
    rw [h]
  · intro v hv hne hncase hp
    have hd : deleteFlag params = false := by
      unfold deleteFlag
      rw [hv]
      have h1 : (v == "1") = false := by simpa using hne
      have h2 : eqIgnoreAsciiCase v "true" = false := by
        unfold eqIgnoreAsciiCase
        rw [hmaptrue]
        simpa using hncase
      simp [h1, h2]
    have hpath : hasNonEmpty params "path" = true := (hasNonEmpty_iff _ _).mpr hp
    rw [validateAclParams_ok_iff]
    simp [hpath, hd, hasNonEmpty_iff]
  · intro key v hget hws
    unfold hasNonEmpty
    rw [hget]
    simp [isBlank_of_all_ws v hws]

/-- Witness for C10 at concrete parameter maps: `"TRUE"` is truthy, an
absent entry is not, `"0"` falls under the set rules (rejected without
roles), and a whitespace-only value is blank. -/
theorem c10_delete_truthiness_witness :
    deleteFlag [("delete", "TRUE"), ("path", "/p")] = true ∧
    deleteFlag [("path", "/p")] = false ∧
    validateAclParams [("delete", "0"), ("path", "/vms"), ("users", "u@pam")] ≠ .ok () ∧
    hasNonEmpty [("path", " \t ")] "path" = false := by
  refine ⟨?_, ?_, ?_, ?_⟩
  · exact (c10_delete_truthiness _).1.mpr ⟨"TRUE", by decide, Or.inr (by decide)⟩
  · exact (c10_delete_truthiness _).2.1 (by decide)
  · intro hok
    have h := ((c10_delete_truthiness _).2.2.1 "0" (by decide) (by decide) (by decide)
      ⟨"/vms", by decide, by decide⟩).mp hok
    obtain ⟨⟨v, hv, _⟩, _⟩ := h
    have hnone : PveParams.get [("delete", "0"), ("path", "/vms"), ("users", "u@pam")]
        "roles" = none := by decide
    rw [hnone] at hv
    exact Option.noConfusion hv
  · exact (c10_delete_truthiness _).2.2.2 "path" " \t " (by decide) (by decide)

/-! ## Lemmas about split_once and the API-token format -/

theorem splitOnce_eq_some (sep : Char) :
    ∀ l a b : List Char, splitOnce sep l = some (a, b) → l = a ++ sep :: b ∧ sep ∉ a := by
  intro l
  induction l with
  | nil =>
    intro a b h
    simp [splitOnce] at h
  | cons c rest ih =>
    intro a b h
    rw [splitOnce] at h
    by_cases hc : c = sep
    · rw [if_pos hc] at h
      simp only [Option.some.injEq, Prod.mk.injEq] at h
      obtain ⟨ha, hb⟩ := h
      subst ha
      subst hb
      subst hc
      exact ⟨rfl, by simp⟩
    · rw [if_neg hc] at h
      cases hsp : splitOnce sep rest with
      | none =>
        rw [hsp] at h
        exact Option.noConfusion h
      | some p =>
        obtain ⟨a0, b0⟩ := p
        rw [hsp] at h
        simp only [Option.some.injEq, Prod.mk.injEq] at h
        obtain ⟨ha, hb⟩ := h
        subst ha
        subst hb
        obtain ⟨hl, hm⟩ := ih _ _ hsp
        subst hl
        refine ⟨rfl, ?_⟩
        intro hmem
        rcases List.mem_cons.mp hmem with h1 | h1
        · exact hc h1.symm
        · exact hm h1

theorem splitOnce_append (sep : Char) :
    ∀ a b : List Char, sep ∉ a → splitOnce sep (a ++ sep :: b) = some (a, b) := by
  intro a
  induction a with
  | nil =>
    intro b _
    simp [splitOnce]
  | cons c cs ih =>
    intro b h
    have hc : ¬ c = sep := by
      intro hh
      exact h (hh ▸ List.mem_cons_self c cs)
    rw [List.cons_append, splitOnce, if_neg hc,
      ih b (fun hm => h (List.mem_cons_of_mem c hm))]

theorem validateApiTokenFormat_ok_iff (token : String) :
    validateApiTokenFormat token = .ok () ↔ ApiTokenShaped token := by
  constructor
  · intro h
    unfold validateApiTokenFormat at h
    cases h1 : splitOnce '!' token.toList with
    | none =>
      simp only [h1] at h
      exact Except.noConfusion h
    | some p1 =>
      obtain ⟨userRealm, tokenPart⟩ := p1
      simp only [h1] at h
      cases h2 : splitOnce '@' userRealm with
      | none =>
        simp only [h2] at h
        exact Except.noConfusion h
      | some p2 =>
        obtain ⟨user, realm⟩ := p2
        simp only [h2] at h
        cases h3 : splitOnce '=' tokenPart with
        | none =>
          simp only [h3] at h
          exact Except.noConfusion h
        | some p3 =>
          obtain ⟨tokenId, secret⟩ := p3
          simp only [h3] at h
          by_cases hemp :
              (user.isEmpty || realm.isEmpty || tokenId.isEmpty || secret.isEmpty) = true
          · rw [if_pos hemp] at h
            exact Except.noConfusion h
          · rw [if_neg hemp] at h
            simp only [Bool.or_eq_true, List.isEmpty_iff, not_or] at hemp
            obtain ⟨⟨⟨hu, hr⟩, hi⟩, hs⟩ := hemp
            obtain ⟨heq1, hm1⟩ := splitOnce_eq_some '!' token.toList userRealm tokenPart h1
            obtain ⟨heq2, hm2⟩ := splitOnce_eq_some '@' userRealm user realm h2
            obtain ⟨heq3, hm3⟩ := splitOnce_eq_some '=' tokenPart tokenId secret h3
            refine ⟨user, realm, tokenId, secret, ?_, hu, hr, hi, hs, hm2, ?_, ?_, hm3⟩
            · rw [heq1, heq2, heq3]
              simp
            · intro hmem
              exact hm1 (heq2 ▸ List.mem_append_left _ hmem)
            · intro hmem
              refine hm1 (heq2 ▸ List.mem_append_right _ ?_)
              exact List.mem_cons_of_mem _ hmem
  · rintro ⟨u, r, i, s, heq, hu, hr, hi, hs, hmu1, hmu2, hmr, hmi⟩
    have hassoc : token.toList = (u ++ '@' :: r) ++ '!' :: (i ++ '=' :: s) := by
      rw [heq]
      simp
    have hnotin1 : '!' ∉ u ++ '@' :: r := by
      intro hmem
      rcases List.mem_append.mp hmem with h1 | h1
      · exact hmu2 h1
      · rcases List.mem_cons.mp h1 with h2 | h2
        · exact absurd h2 (by decide)
        · exact hmr h2
    unfold validateApiTokenFormat
    rw [hassoc]
    simp only [splitOnce_append '!' (u ++ '@' :: r) (i ++ '=' :: s) hnotin1,
      splitOnce_append '@' u r hmu1, splitOnce_append '=' i s hmi]
    have hemp : (u.isEmpty || r.isEmpty || i.isEmpty || s.isEmpty) = false := by
      simp [List.isEmpty_iff, hu, hr, hi, hs]
    simp [hemp]

/-! ## C8: API-token format validation -/

/-- C8: supplying an API token at client construction succeeds exactly
when the token matches `<user>@<realm>!<tokenid>=<secret>` with all
four segments non-empty, and fails with the `InvalidArgument`
configuration error otherwise (the only error this validation
produces). -/
theorem c8_api_token_validation (token : String) :
    (validateApiTokenFormat token = .ok () ↔ ApiTokenShaped token)
  ∧ (resolveApiTokenAuth token = .ok (.apiToken token) ↔ ApiTokenShaped token)
  ∧ (validateApiTokenFormat token = .ok () ∨
     validateApiTokenFormat token = .error (.invalidArgument apiTokenFormatMsg)) := by
  have hout : validateApiTokenFormat token = .ok () ∨
      validateApiTokenFormat token = .error (.invalidArgument apiTokenFormatMsg) := by
    unfold validateApiTokenFormat
    split
    · exact Or.inr rfl
    · split
      · exact Or.inr rfl
      · split
        · exact Or.inr rfl
        · split
          · exact Or.inr rfl
          · exact Or.inl rfl
  refine ⟨validateApiTokenFormat_ok_iff token, ?_, hout⟩
  constructor
  · intro h
    rcases hout with hv | hv
    · exact (validateApiTokenFormat_ok_iff token).mp hv
    · unfold resolveApiTokenAuth at h
      rw [hv] at h
      exact Except.noConfusion h
  · intro hs
    have hv := (validateApiTokenFormat_ok_iff token).mpr hs
    unfold resolveApiTokenAuth
    rw [hv]

/-- Witness for C8 at a concrete well-shaped token. -/
theorem c8_api_token_validation_witness :
    validateApiTokenFormat "root@pam!ci=secret" = .ok () :=
  (c8_api_token_validation "root@pam!ci=secret").1.mpr
    ⟨"root".toList, "pam".toList, "ci".toList, "secret".toList, by decide, by decide,
      by decide, by decide, by decide, by decide, by decide, by decide, by decide⟩

/-! ## Lemmas for base-URL validation -/

theorem hbc_append (a t : List Char) : hasBracketColon (a ++ ']' :: ':' :: t) = true := by
  induction a with
  | nil => simp [hasBracketColon]
  | cons c cs ih =>
    cases cs with
    | nil => simp [hasBracketColon]
    | cons d ds =>
      simp only [List.cons_append] at ih ⊢
      rw [hasBracketColon, ih]
      simp

theorem mem_dropWhile_of_neg (p : Char → Bool) (c : Char) (hc : p c = false) :
    ∀ l : List Char, c ∈ l → c ∈ l.dropWhile p := by
  intro l
  induction l with
  | nil => intro h; cases h
  | cons x xs ih =>
    intro h
    rw [List.dropWhile_cons]
    by_cases hx : p x = true
    · rw [if_pos hx]
      rcases List.mem_cons.mp h with h1 | h1
      · rw [h1] at hc
        rw [hc] at hx
        exact Bool.noConfusion hx
      · exact ih h1
    · rw [if_neg hx]
      exact h

theorem mem_dropTrailingSlashes {c : Char} (hc : (c == '/') = false) {l : List Char}
    (h : c ∈ l) : c ∈ dropTrailingSlashes l := by
  unfold dropTrailingSlashes
  rw [List.mem_reverse]
  exact mem_dropWhile_of_neg _ c hc l.reverse (List.mem_reverse.mpr h)

theorem contains_of_mem {l : List Char} {c : Char} (h : c ∈ l) : l.contains c = true := by
  simp [h]

theorem dts_append (a b : List Char) (m : Char) (hm : (m == '/') = false) :
    ∃ t, dropTrailingSlashes (a ++ m :: b) = a ++ m :: t := by
  unfold dropTrailingSlashes
  have h1 : (a ++ m :: b).reverse = b.reverse ++ (m :: a.reverse) := by simp
  rw [h1, List.dropWhile_append]
  by_cases hbe : ((b.reverse).dropWhile (fun c => c == '/')).isEmpty = true
  · rw [if_pos hbe]
    refine ⟨[], ?_⟩
    simp [List.dropWhile_cons, hm]
  · rw [if_neg hbe]
    refine ⟨((b.reverse).dropWhile (fun c => c == '/')).reverse, ?_⟩
    simp

theorem dts_concat (a : List Char) (m : Char) (hm : (m == '/') = false) :
    dropTrailingSlashes (a ++ [m]) = a ++ [m] := by
  obtain ⟨t, ht⟩ := dts_append a [] m hm
  have hsub : List.Sublist ((a ++ [m]).reverse.dropWhile (fun c => c == '/'))
      ((a ++ [m]).reverse) := List.dropWhile_sublist _
  have hlen : (dropTrailingSlashes (a ++ [m])).length ≤ (a ++ [m]).length := by
    unfold dropTrailingSlashes
    rw [List.length_reverse]
    calc ((a ++ [m]).reverse.dropWhile (fun c => c == '/')).length
        ≤ (a ++ [m]).reverse.length := hsub.length_le
      _ = (a ++ [m]).length := List.length_reverse _
  rw [ht] at hlen
  have ht0 : t = [] := by
    rw [List.length_append, List.length_append, List.length_cons,
      List.length_singleton] at hlen
    exact List.eq_nil_of_length_eq_zero (by omega)
  rw [ht, ht0]

theorem countC_append (c : Char) (l1 l2 : List Char) :
    countC c (l1 ++ l2) = countC c l1 + countC c l2 := by
  simp [countC, List.filter_append]

theorem countC_eq_zero (c : Char) (l : List Char) (h : c ∉ l) : countC c l = 0 := by
  unfold countC
  rw [List.length_eq_zero, List.filter_eq_nil_iff]
  intro a ha hbeq
  exact h ((eq_of_beq hbeq) ▸ ha)

theorem countC_cons_self (c : Char) (l : List Char) :
    countC c (c :: l) = countC c l + 1 := by
  simp [countC, List.filter_cons]

theorem digit_ne_slash (c : Char) (h : c.isDigit = true) : (c == '/') = false := by
  cases hb : (c == '/')
  · rfl
  · have hcs : c = '/' := eq_of_beq hb
    subst hcs
    exact absurd h (by decide)

/-! ## C6: response envelope handling -/

/-- C6: a response outside the 2xx range fails with `ApiStatus` carrying
the numeric status and the body text unmodified, regardless of body
content; a 2xx response is parsed as a `{"data": T}` envelope and the
unwrapped payload is returned, while a body that is not valid JSON, has
no (unique) `data` member, or whose `data` does not decode as `T`, fails
with a decode error. -/
theorem c6_execute_envelope (α : Type) (decodePayload : Json → Option α)
    (resp : HttpResponse) :
    (¬ (200 ≤ resp.status ∧ resp.status < 300) →
      executeResponse decodePayload resp = .error (.apiStatus resp.status resp.body))
  ∧ (200 ≤ resp.status ∧ resp.status < 300 →
      (∀ j d v, jsonParse resp.body = some j → envelopeData j = some d →
        decodePayload d = some v → executeResponse decodePayload resp = .ok v)
    ∧ (jsonParse resp.body = none →
        ∃ m, executeResponse decodePayload resp = .error (.decode m))
    ∧ (∀ j, jsonParse resp.body = some j → envelopeData j = none →
        ∃ m, executeResponse decodePayload resp = .error (.decode m))
    ∧ (∀ j d, jsonParse resp.body = some j → envelopeData j = some d →
        decodePayload d = none →
        ∃ m, executeResponse decodePayload resp = .error (.decode m))) := by
  constructor
  · intro h
    have hb : (decide (200 ≤ resp.status) && decide (resp.status < 300)) = false := by
      by_cases h1 : 200 ≤ resp.status
      · by_cases h2 : resp.status < 300
        · exact absurd ⟨h1, h2⟩ h
        · simp [h2]
      · simp [h1]
    unfold executeResponse
    rw [hb]
    rfl
  · intro h
    have hb : (decide (200 ≤ resp.status) && decide (resp.status < 300)) = true := by
      simp [h.1, h.2]
    refine ⟨?_, ?_, ?_, ?_⟩
    · intro j d v hj hd hv
      unfold executeResponse
      rw [hb]
      simp only [Bool.not_true, Bool.false_eq_true, if_false, hj, hd, hv]
    · intro hj
      refine ⟨"invalid json body", ?_⟩
      unfold executeResponse
      rw [hb]
      simp only [Bool.not_true, Bool.false_eq_true, if_false, hj]
    · intro j hj hd
      refine ⟨"body does not match the data envelope", ?_⟩
      unfold executeResponse
      rw [hb]
      simp only [Bool.not_true, Bool.false_eq_true, if_false, hj, hd]
    · intro j d hj hd hv
      refine ⟨"data payload does not match the target type", ?_⟩
      unfold executeResponse
      rw [hb]
      simp only [Bool.not_true, Bool.false_eq_true, if_false, hj, hd, hv]

/-- Witness for C6 at concrete responses. -/
theorem c6_execute_envelope_witness :
    executeResponse (Option.some : Json → Option Json)
        (HttpResponse.mk 200 "\x7b\"a\": 1, \"data\": 42\x7d") = .ok (Json.num "42") ∧
    executeResponse (Option.some : Json → Option Json)
        (HttpResponse.mk 404 "not json at all") = .error (.apiStatus 404 "not json at all") ∧
    (∃ m, executeResponse (Option.some : Json → Option Json)
        (HttpResponse.mk 200 "garbage") = .error (.decode m)) := by
  refine ⟨?_, ?_, ?_⟩
  · exact ((c6_execute_envelope Json Option.some
      (HttpResponse.mk 200 "\x7b\"a\": 1, \"data\": 42\x7d")).2 (by decide)).1
      (Json.obj [("a", Json.num "1"), ("data", Json.num "42")]) (Json.num "42")
      (Json.num "42") rfl rfl rfl
  · exact (c6_execute_envelope Json Option.some
      (HttpResponse.mk 404 "not json at all")).1 (by decide)
  · exact ((c6_execute_envelope Json Option.some
      (HttpResponse.mk 200 "garbage")).2 (by decide)).2.1 rfl

/-! ## C5: base-URL validation -/

/-- C5 is refuted at a concrete input: the host string
`https://example.com:443` carries an embedded port (the `:443` suffix),
yet `build_base_url` accepts it, because the url crate elides a port
equal to the scheme's default, so the embedded-port check
(`parsed.port().is_some()`) does not fire. -/
theorem c5_base_url_counterexample :
    buildBaseUrl "https://example.com:443" 8006 true = .ok "https://example.com:8006/" ∧
    "https://example.com:443".toList =
      "https://example.com".toList ++ ':' :: "443".toList :=
  ⟨rfl, by decide⟩

/-- C5 amended: for every host string without an explicit scheme that
carries an embedded port, path, query/fragment, or credentials,
`build_base_url` fails with an `InvalidBaseUrl` configuration error
(scheme-prefixed hosts whose embedded port is the scheme's default are
accepted with the port dropped, per the counterexample); and the bare
IPv6 literal `2001:db8::1` is bracketed in the resulting base URL. -/
theorem c5_base_url_validation :
    (∀ (s : String) (port : Nat) (tls : Bool),
      rustTrim s.toList = s.toList →
      ¬ SchemePrefixed s →
      (HasEmbeddedPort s ∨ HasEmbeddedPath s ∨ HasEmbeddedQueryOrFragment s ∨
       HasEmbeddedCredentials s) →
      ∃ msg, buildBaseUrl s port tls = .error (.invalidBaseUrl msg)) ∧
    buildBaseUrl "2001:db8::1" 8006 true = .ok "https://[2001:db8::1]:8006/" := by
  refine ⟨?_, rfl⟩
  intro s port tls htrim hns hpred
  have hs1 : leadsWith "https://".toList s.toList = false := by
    cases hb : leadsWith "https://".toList s.toList
    · rfl
    · exact absurd (Or.inl hb) hns
  have hs2 : leadsWith "http://".toList s.toList = false := by
    cases hb : leadsWith "http://".toList s.toList
    · rfl
    · exact absurd (Or.inr hb) hns
  unfold buildBaseUrl
  simp only [htrim, hs1, hs2, Bool.or_self, Bool.false_eq_true, if_false]
  set h2 := dropTrailingSlashes s.toList with hh2
  by_cases g1 : h2.contains '/' = true
  · refine ⟨"host must not include path, use ClientOption::host(\"pve.example.com\")", ?_⟩
    rw [if_pos g1]
  · rw [if_neg g1]
    by_cases g2 : (h2.contains '?' || h2.contains '#') = true
    · refine ⟨"host must not include query or fragment", ?_⟩
      rw [if_pos g2]
    · rw [if_neg g2]
      by_cases g3 : h2.contains '@' = true
      · refine ⟨"host must not include credentials", ?_⟩
        rw [if_pos g3]
      · rw [if_neg g3]
        by_cases g4 : (hasBracketColon h2 ||
            (countC ':' h2 == 1 && !(leadsWith ['['] h2))) = true
        · refine ⟨"host must not include port, use ClientOption::port()", ?_⟩
          rw [if_pos g4]
        · exfalso
          rcases hpred with hport | hpath | hqf | hcred
          · rcases hport with ⟨a, b, heq⟩ | ⟨h, d, heq, hdne, hdig, hcol, hbra⟩
            · have hre : s.toList = (a ++ [']']) ++ ':' :: b := by
                rw [heq]
                simp
              obtain ⟨t, ht⟩ := dts_append (a ++ [']']) b ':' (by decide)
              apply g4
              rw [hh2, hre, ht]
              have hassoc : (a ++ [']']) ++ ':' :: t = a ++ ']' :: ':' :: t := by simp
              rw [hassoc, hbc_append a t]
              simp
            · rcases List.eq_nil_or_concat d with hnil | ⟨d1, c, hdc⟩
              · exact hdne hnil
              · have hdc2 : d = d1 ++ [c] := by
                  simpa [List.concat_eq_append] using hdc
                have hcdig : c.isDigit = true := hdig c (by rw [hdc2]; simp)
                have hre : s.toList = (h ++ ':' :: d1) ++ [c] := by
                  rw [heq, hdc2]
                  simp
                have hdts : dropTrailingSlashes s.toList = s.toList := by
                  rw [hre]
                  rw [dts_concat _ c (digit_ne_slash c hcdig)]
                have hd0 : countC ':' d = 0 :=
                  countC_eq_zero ':' d (fun hm => absurd (hdig ':' hm) (by decide))
                have hcount : countC ':' s.toList = 1 := by
                  rw [heq, countC_append, countC_cons_self, hd0,
                    countC_eq_zero ':' h hcol]
                apply g4
                rw [hh2, hdts, hcount, hbra]
                simp
          · obtain ⟨a, b, heq, c, hcb, hcs⟩ := hpath
            obtain ⟨b1, b2, hb⟩ := List.append_of_mem hcb
            have hre : s.toList = (a ++ '/' :: b1) ++ c :: b2 := by
              rw [heq, hb]
              simp
            have hcneq : (c == '/') = false := by
              cases hb2 : (c == '/')
              · rfl
              · exact absurd (eq_of_beq hb2) hcs
            obtain ⟨t, ht⟩ := dts_append (a ++ '/' :: b1) b2 c hcneq
            apply g1
            rw [hh2, hre, ht]
            apply contains_of_mem
            simp
          · rcases hqf with hq | hq
            · apply g2
              rw [hh2]
              rw [contains_of_mem (mem_dropTrailingSlashes (by decide) hq)]
              simp
            · apply g2
              rw [hh2]
              rw [contains_of_mem (mem_dropTrailingSlashes (c := '#') (by decide) hq)]
              simp
          · apply g3
            rw [hh2]
            exact contains_of_mem (mem_dropTrailingSlashes (by decide) hcred)

/-- Witness for C5 amended at a concrete host with an embedded port. -/
theorem c5_base_url_validation_witness :
    ∃ msg, buildBaseUrl "pve.example.com:8006" 8006 true =
      .error (.invalidBaseUrl msg) := by
  refine c5_base_url_validation.1 "pve.example.com:8006" 8006 true (by decide) ?_ ?_
  · intro hc
    rcases hc with hb | hb
    · exact absurd hb (by decide)
    · exact absurd hb (by decide)
  · refine Or.inl (Or.inr ⟨"pve.example.com".toList, "8006".toList, by decide, by decide,
      ?_, by decide, by decide⟩)
    intro c hc
    fin_cases hc <;> decide

end PveSdk
